import Mathlib

/-!
Shallow embedding of the komainu poll (vote) subsystem and the access-grant
command, translated from `src/interactions/vote.go` and `src/commands/access.go`.

The storage facade (`komainu/storage`) is not part of the provided sources; per
its contract (spec §4.2) a record at one `(tenant, category, key)` triple is
read whole and replaced whole, so the store relevant to one record is modelled
as an `Option` of the record's value.  Go maps are modelled as association
lists whose update (`m[k] = v`) overwrites the entry for `k`.  Discord user
and role identifiers are modelled as `Nat`; text is modelled as `List Char`
where lengths matter (Go truncates at a byte count; for the length claims the
distinction is immaterial) and as `String` for generated option keys.
-/

/-- Go map assignment `m[k] = v` on an association-list model: replaces the
entry for `k` if present, otherwise appends a fresh entry. -/
def insertAssoc {α β : Type} [DecidableEq α] (k : α) (v : β) : List (α × β) → List (α × β)
  | [] => [(k, v)]
  | (k₁, v₁) :: rest => if k = k₁ then (k, v) :: rest else (k₁, v₁) :: insertAssoc k v rest

/-- Go map read `m[k]` (with its `ok` flag) on the association-list model. -/
def lookupAssoc {α β : Type} [DecidableEq α] (k : α) : List (α × β) → Option β
  | [] => none
  | (k₁, v₁) :: rest => if k = k₁ then some v₁ else lookupAssoc k rest

/-- Number of entries of an association list carrying key `k`: a Go map always
has at most one, so this counts model states reachable from map operations. -/
def countKey {α β : Type} [DecidableEq α] (k : α) : List (α × β) → Nat
  | [] => 0
  | (k₁, _) :: rest => (if k = k₁ then 1 else 0) + countKey k rest

/-- The `storage.Vote` record as used by `src/interactions/vote.go`: options
map option-keys to display labels, `order` lists the keys in creation order,
`votes` maps a voter to the single option-key they chose. -/
structure Vote where
  startTime : Int
  endTime : Int
  question : List Char
  options : List (String × List Char)
  order : List String
  votes : List (Nat × String)
  deriving Repr, DecidableEq

/-- Outcomes of `handleInteractionAsVote`, one constructor per return site:
`notPoll` is the `!exist` return, `pollClosed` carries the reply "I'm sorry,
that vote is closed!", `wrongFormat` the failed `SelectInteraction` assertion,
`notOneValue` the reply "You must select exactly one item", `invalidOption`
the reply "Sorry, you can't vote for that.", and `registered` the success
reply carrying the chosen option's label. -/
inductive CastOutcome : Type
  | notPoll : CastOutcome
  | pollClosed : CastOutcome
  | wrongFormat : CastOutcome
  | notOneValue : Nat → CastOutcome
  | invalidOption : String → CastOutcome
  | registered : List Char → CastOutcome
  deriving Repr, DecidableEq

/-- Translation of `handleInteractionAsVote` (src/interactions/vote.go):
load the stored record for the message; if absent report not-a-poll; if
`vote.EndTime <= now` reject as closed; if the interaction is not a
`SelectInteraction` reject as wrong format; if the number of selected values
is not exactly one reject; if the selected key is not in `vote.Options`
reject; otherwise set `vote.Votes[sender] = voted` and store the record.
The returned pair is (outcome, stored record after the call). -/
def handleInteractionAsVote (stored : Option Vote) (now : Int) (voter : Nat)
    (isSelect : Bool) (values : List String) : CastOutcome × Option Vote :=
  match stored with
  | none => (CastOutcome.notPoll, none)
  | some vote =>
    if vote.endTime ≤ now then
      (CastOutcome.pollClosed, some vote)
    else if isSelect = false then
      (CastOutcome.wrongFormat, some vote)
    else
      match values with
      | [voted] =>
        match lookupAssoc voted vote.options with
        | none => (CastOutcome.invalidOption voted, some vote)
        | some label =>
          (CastOutcome.registered label,
            some { vote with votes := insertAssoc voter voted vote.votes })
      | _ => (CastOutcome.notOneValue values.length, some vote)

/-- Translation of the option-construction loop of `VoteModalHandler`
(src/interactions/vote.go): for each line at index `i`, stop once `i > 24`,
truncate the line to its first 100 characters if longer, generate the key
`"vote/" ++ toString i`, record the key/label pair and append the key to the
order list.  Returns (options, order). -/
def processOptionLines (i : Nat) : List (List Char) → List (String × List Char) × List String
  | [] => ([], [])
  | opt :: rest =>
    if i > 24 then ([], [])
    else
      let label := if opt.length > 100 then opt.take 100 else opt
      let key := "vote/" ++ toString i
      let next := processOptionLines (i + 1) rest
      ((key, label) :: next.1, key :: next.2)

/-- Translation of the Vote construction in `VoteModalHandler`: `StartTime` is
the current time, `EndTime = StartTime + int64(days*24*3600)` (Go truncates the
float toward zero; for the non-negative durations the platform admits this is
the floor), `Votes` starts empty, and options and order come from the
newline-split option lines. -/
def createVote (startTime : Int) (days : ℚ) (question : List Char)
    (optionLines : List (List Char)) : Vote :=
  let built := processOptionLines 0 optionLines
  { startTime := startTime
    endTime := startTime + ⌊days * 86400⌋
    question := question
    options := built.1
    order := built.2
    votes := [] }

/-- Duration validation implied by the source: `commandVoteObject` declares the
`length` option with `Min: 0` and `Max: 365`, both inclusive and enforced by
the platform before the value reaches the handler; `VoteModalHandler` adds no
further range check of its own. -/
def durationAccepted (days : ℚ) : Bool :=
  decide (0 ≤ days ∧ days ≤ 365)

/-- Duration validation as the spec words it: the requested number of days
must lie in the half-open interval (0, 365]. -/
def specDurationAccepted (days : ℚ) : Bool :=
  decide (0 < days ∧ days ≤ 365)

/-- One option of the ballot selector: its display label and the option-key
sent back when the voter picks it. -/
structure SelectOption where
  label : List Char
  value : String
  deriving Repr, DecidableEq

/-- Translation of `makeVoteSelector` (src/interactions/vote.go): the selector
is built by `for key, label := range vote.Options`, i.e. by iterating the
options map.  Go map iteration order is unspecified, so the embedding takes
the iteration sequence explicitly; any permutation of the record's options
entries is a possible iteration. -/
def makeVoteSelector (iteration : List (String × List Char)) : List SelectOption :=
  iteration.map (fun kv => { label := kv.2, value := kv.1 })

/-- Translation of `SubCommandAccessGrant` (src/commands/access.go): read the
stored role list (absent reads as the empty list with `found = false`); when
the record is absent or the role is not yet present, append the role and store
the list; otherwise make no write.  `utility.ContainsRole` is membership in
the list. -/
def subCommandAccessGrant (stored : Option (List Nat)) (roleID : Nat) : Option (List Nat) :=
  match stored with
  | none => some [roleID]
  | some granted =>
    if roleID ∈ granted then some granted else some (granted ++ [roleID])

/-- Iterated grants: the stored state after `n` calls of
`SubCommandAccessGrant` for the same role. -/
def grantSeq (stored : Option (List Nat)) (roleID : Nat) : Nat → Option (List Nat)
  | 0 => stored
  | n + 1 => grantSeq (subCommandAccessGrant stored roleID) roleID n

/-- Occurrences of a role in a stored role list (an absent record holds the
role zero times). -/
def roleCount (r : Nat) : List Nat → Nat
  | [] => 0
  | x :: rest => (if r = x then 1 else 0) + roleCount r rest

/-- Occurrences of a role in the stored record. -/
def storedRoleCount (r : Nat) (stored : Option (List Nat)) : Nat :=
  roleCount r (stored.getD [])

/-- Stored state after a sequence of ballot casts, each a (voter, option-key)
pair submitted through a select interaction: every cast is one call of
`handleInteractionAsVote` whose write (if any) is visible to the next. -/
def castSequence (now : Int) (casts : List (Nat × String)) (stored : Option Vote) : Option Vote :=
  match casts with
  | [] => stored
  | c :: rest => castSequence now rest (handleInteractionAsVote stored now c.1 true [c.2]).2

/-- Two ballot casts under the structure of the source, where `storage.GetVote`
and `Vote.Store` are two separate store operations rather than one transaction:
in the interleaving read₁, read₂, write₁, write₂ both casts read the same
stored snapshot and the second write overwrites the first.  Returns both
outcomes and the finally stored record. -/
def staleInterleaving (stored : Option Vote) (now : Int)
    (u₁ : Nat) (v₁ : String) (u₂ : Nat) (v₂ : String) :
    CastOutcome × CastOutcome × Option Vote :=
  let r₁ := handleInteractionAsVote stored now u₁ true [v₁]
  let r₂ := handleInteractionAsVote stored now u₂ true [v₂]
  (r₁.1, r₂.1, r₂.2)

/-- Every `votes` value names an existing option. -/
def votesWellFormed (v : Vote) : Prop :=
  ∀ p ∈ v.votes, (lookupAssoc p.2 v.options).isSome = true

/-- A concrete open poll used to evaluate the handler at specific inputs:
two options, no ballots yet. -/
def pollAB : Vote :=
  { startTime := 1000
    endTime := 2000
    question := ['L', 'u', 'n', 'c', 'h', '?']
    options := [("vote/0", ['P', 'i', 'z', 'z', 'a']), ("vote/1", ['T', 'a', 'c', 'o', 's'])]
    order := ["vote/0", "vote/1"]
    votes := [] }

theorem mem_insertAssoc {α β : Type} [DecidableEq α] {k : α} {v : β} {l : List (α × β)}
    {p : α × β} (h : p ∈ insertAssoc k v l) : p = (k, v) ∨ p ∈ l := by
  induction l with
  | nil =>
    simp [insertAssoc] at h
    exact Or.inl h
  | cons q rest ih =>
    obtain ⟨k₁, v₁⟩ := q
    by_cases hk : k = k₁
    · subst hk
      simp [insertAssoc] at h
      rcases h with h | h
      · exact Or.inl (by simp [h])
      · exact Or.inr (List.mem_cons_of_mem _ h)
    · simp [insertAssoc, hk] at h
      rcases h with h | h
      · exact Or.inr (by simp [h])
      · rcases ih h with h' | h'
        · exact Or.inl h'
        · exact Or.inr (List.mem_cons_of_mem _ h')

theorem lookupAssoc_insertAssoc_self {α β : Type} [DecidableEq α] (k : α) (v : β)
    (l : List (α × β)) : lookupAssoc k (insertAssoc k v l) = some v := by
  induction l with
  | nil => simp [insertAssoc, lookupAssoc]
  | cons q rest ih =>
    obtain ⟨k₁, v₁⟩ := q
    by_cases hk : k = k₁
    · simp [insertAssoc, lookupAssoc, hk]
    · simp [insertAssoc, lookupAssoc, hk, ih]

theorem countKey_insertAssoc {α β : Type} [DecidableEq α] (k : α) (v : β)
    (l : List (α × β)) (h : countKey k l ≤ 1) : countKey k (insertAssoc k v l) = 1 := by
  induction l with
  | nil => simp [insertAssoc, countKey]
  | cons q rest ih =>
    obtain ⟨k₁, v₁⟩ := q
    by_cases hk : k = k₁
    · simp [countKey, hk] at h
      simp [insertAssoc, countKey, hk]
      omega
    · simp [countKey, hk] at h
      simp [insertAssoc, countKey, hk]
      exact ih h

theorem insertAssoc_insertAssoc_same {α β : Type} [DecidableEq α] (k : α) (v₁ v₂ : β)
    (l : List (α × β)) : insertAssoc k v₂ (insertAssoc k v₁ l) = insertAssoc k v₂ l := by
  induction l with
  | nil => simp [insertAssoc]
  | cons q rest ih =>
    obtain ⟨k₁, w⟩ := q
    by_cases hk : k = k₁
    · simp [insertAssoc, hk]
    · simp [insertAssoc, hk, ih]

/-- Claim C2: a ballot cast on a stored poll whose endTime is at most the
current time is rejected with the poll-closed outcome, and the stored record
is unchanged. -/
theorem castOnClosedPoll_noWrite (v : Vote) (now : Int) (voter : Nat) (isSelect : Bool)
    (values : List String) (h : v.endTime ≤ now) :
    handleInteractionAsVote (some v) now voter isSelect values
      = (CastOutcome.pollClosed, some v) := by
  simp [handleInteractionAsVote, h]

/-- Evaluation of the closed-poll rejection at a concrete input. -/
theorem castOnClosedPoll_noWrite_witness :
    pollAB.endTime ≤ 2500 ∧
      handleInteractionAsVote (some pollAB) 2500 7 true ["vote/0"]
        = (CastOutcome.pollClosed, some pollAB) :=
  ⟨by decide, castOnClosedPoll_noWrite pollAB 2500 7 true ["vote/0"] (by decide)⟩

/-- Claim C10: a select-component ballot whose payload does not hold exactly
one value is rejected with the select-exactly-one outcome, and the stored
record is unchanged. -/
theorem castWrongValueCount_noWrite (v : Vote) (now : Int) (voter : Nat)
    (values : List String) (hopen : now < v.endTime) (hlen : values.length ≠ 1) :
    handleInteractionAsVote (some v) now voter true values
      = (CastOutcome.notOneValue values.length, some v) := by
  have h1 : ¬ v.endTime ≤ now := not_le.mpr hopen
  cases values with
  | nil => simp [handleInteractionAsVote, h1]
  | cons a t =>
    cases t with
    | nil => simp at hlen
    | cons b t' => simp [handleInteractionAsVote, h1]

/-- Evaluation of the wrong-value-count rejection at a concrete input. -/
theorem castWrongValueCount_noWrite_witness :
    (1500 : Int) < pollAB.endTime ∧ List.length ([] : List String) ≠ 1 ∧
      handleInteractionAsVote (some pollAB) 1500 7 true []
        = (CastOutcome.notOneValue 0, some pollAB) :=
  ⟨by decide, by decide, castWrongValueCount_noWrite pollAB 1500 7 [] (by decide) (by decide)⟩

theorem handleVote_wf_preserved (v : Vote) (now : Int) (voter : Nat) (isSelect : Bool)
    (values : List String) (o : CastOutcome) (v' : Vote)
    (hwf : votesWellFormed v)
    (h : handleInteractionAsVote (some v) now voter isSelect values = (o, some v')) :
    votesWellFormed v' := by
  by_cases hc : v.endTime ≤ now
  · simp [handleInteractionAsVote, hc] at h
    obtain ⟨-, h2⟩ := h
    subst h2
    exact hwf
  · cases isSelect with
    | false =>
      simp [handleInteractionAsVote, hc] at h
      obtain ⟨-, h2⟩ := h
      subst h2
      exact hwf
    | true =>
      cases values with
      | nil =>
        simp [handleInteractionAsVote, hc] at h
        obtain ⟨-, h2⟩ := h
        subst h2
        exact hwf
      | cons a t =>
        cases t with
        | cons b t' =>
          simp [handleInteractionAsVote, hc] at h
          obtain ⟨-, h2⟩ := h
          subst h2
          exact hwf
        | nil =>
          cases hl : lookupAssoc a v.options with
          | none =>
            simp [handleInteractionAsVote, hc, hl] at h
            obtain ⟨-, h2⟩ := h
            subst h2
            exact hwf
          | some label =>
            simp [handleInteractionAsVote, hc, hl] at h
            obtain ⟨-, h2⟩ := h
            subst h2
            intro p hp
            rcases mem_insertAssoc hp with h' | h'
            · subst h'
              simp [hl]
            · exact hwf p h'

/-- Claim C3: every reachable Vote record maps voters only to existing
option-keys: creation starts with an empty votes map, a cast preserves the
invariant (it only inserts a key it found in options), and a ballot naming an
unknown option-key is rejected with the invalid-option outcome and the stored
record is unchanged. -/
theorem votesValuesAreOptionKeys :
    (∀ startTime days question lines,
      votesWellFormed (createVote startTime days question lines))
    ∧ (∀ v now voter isSelect values o v', votesWellFormed v →
        handleInteractionAsVote (some v) now voter isSelect values = (o, some v') →
        votesWellFormed v')
    ∧ (∀ v now voter k, now < v.endTime → lookupAssoc k v.options = none →
        handleInteractionAsVote (some v) now voter true [k]
          = (CastOutcome.invalidOption k, some v)) := by
  refine ⟨?_, ?_, ?_⟩
  · intro startTime days question lines p hp
    simp [createVote] at hp
  · exact fun v now voter isSelect values o v' hwf h =>
      handleVote_wf_preserved v now voter isSelect values o v' hwf h
  · intro v now voter k hopen hnone
    have hc : ¬ v.endTime ≤ now := not_le.mpr hopen
    simp [handleInteractionAsVote, hc, hnone]

/-- Evaluation of the invalid-option rejection at a concrete input. -/
theorem votesValuesAreOptionKeys_witness :
    handleInteractionAsVote (some pollAB) 1500 7 true ["nope"]
      = (CastOutcome.invalidOption "nope", some pollAB) :=
  votesValuesAreOptionKeys.2.2 pollAB 1500 7 "nope" (by decide) (by decide)

theorem handleVote_accepted (v : Vote) (now : Int) (u : Nat) (k : String) (label : List Char)
    (hopen : now < v.endTime) (hk : lookupAssoc k v.options = some label) :
    handleInteractionAsVote (some v) now u true [k]
      = (CastOutcome.registered label,
        some { v with votes := insertAssoc u k v.votes }) := by
  have hc : ¬ v.endTime ≤ now := not_le.mpr hopen
  simp [handleInteractionAsVote, hc, hk]

theorem castSequence_sameVoter (now : Int) (u : Nat) (ks : List String) :
    ∀ v : Vote, now < v.endTime →
      (∀ x ∈ ks, (lookupAssoc x v.options).isSome = true) →
      castSequence now (ks.map fun x => (u, x)) (some v)
        = some { v with votes := ks.foldl (fun a x => insertAssoc u x a) v.votes } := by
  induction ks with
  | nil => intro v hopen hvalid; rfl
  | cons k rest ih =>
    intro v hopen hvalid
    obtain ⟨label, hl⟩ := Option.isSome_iff_exists.mp (hvalid k (by simp))
    have hstep := handleVote_accepted v now u k label hopen hl
    simp only [List.map_cons, castSequence, hstep]
    have hrec := ih { v with votes := insertAssoc u k v.votes } hopen
      (fun x hx => hvalid x (List.mem_cons_of_mem _ hx))
    rw [hrec]
    rfl

theorem foldl_insertAssoc_last {α β : Type} [DecidableEq α] (u : α) :
    ∀ (ks : List β) (k : β) (vs : List (α × β)), ks.getLast? = some k →
      ks.foldl (fun a x => insertAssoc u x a) vs = insertAssoc u k vs := by
  intro ks
  induction ks with
  | nil => intro k vs h; simp at h
  | cons a rest ih =>
    intro k vs h
    cases rest with
    | nil =>
      simp [List.getLast?] at h
      subst h
      rfl
    | cons b rest' =>
      have h' : (b :: rest').getLast? = some k := by
        rwa [List.getLast?_cons_cons] at h
      show List.foldl _ (insertAssoc u a vs) (b :: rest') = _
      rw [ih k (insertAssoc u a vs) h', insertAssoc_insertAssoc_same]

/-- Claim C4: ballots are last-write-wins per voter.  After any nonempty
sequence of accepted casts by voter `u` on the same open poll, the stored
votes map holds exactly one entry for `u`, equal to the option-key of the
last cast; starting from an empty votes map the whole map is that single
entry, so the tally total is 1. -/
theorem lastWriteWins (v : Vote) (now : Int) (u : Nat) (ks : List String) (k : String)
    (hopen : now < v.endTime)
    (hvalid : ∀ x ∈ ks, (lookupAssoc x v.options).isSome = true)
    (hlast : ks.getLast? = some k)
    (hcount : countKey u v.votes ≤ 1) :
    castSequence now (ks.map fun x => (u, x)) (some v)
      = some { v with votes := insertAssoc u k v.votes }
    ∧ lookupAssoc u (insertAssoc u k v.votes) = some k
    ∧ countKey u (insertAssoc u k v.votes) = 1
    ∧ (v.votes = [] → insertAssoc u k v.votes = [(u, k)]) := by
  refine ⟨?_, lookupAssoc_insertAssoc_self u k v.votes,
    countKey_insertAssoc u k v.votes hcount, ?_⟩
  · rw [castSequence_sameVoter now u ks v hopen hvalid,
      foldl_insertAssoc_last u ks k v.votes hlast]
  · intro he
    rw [he]
    rfl

/-- Evaluation of last-write-wins at a concrete input: voter 7 casts for
"vote/0" and then for "vote/1" on the open two-option poll. -/
theorem lastWriteWins_witness :
    castSequence 1500 (["vote/0", "vote/1"].map fun x => (7, x)) (some pollAB)
      = some { pollAB with votes := insertAssoc 7 "vote/1" pollAB.votes }
    ∧ lookupAssoc 7 (insertAssoc 7 "vote/1" pollAB.votes) = some "vote/1"
    ∧ countKey 7 (insertAssoc 7 "vote/1" pollAB.votes) = 1
    ∧ (pollAB.votes = [] → insertAssoc 7 "vote/1" pollAB.votes = [(7, "vote/1")]) :=
  lastWriteWins pollAB 1500 7 ["vote/0", "vote/1"] "vote/1"
    (by decide) (by decide) (by decide) (by decide)

theorem roleCount_eq_zero_of_not_mem (r : Nat) (g : List Nat) (h : r ∉ g) :
    roleCount r g = 0 := by
  induction g with
  | nil => rfl
  | cons x rest ih =>
    have hx : r ≠ x := fun he => h (he ▸ List.mem_cons_self x rest)
    have hr : r ∉ rest := fun hm => h (List.mem_cons_of_mem _ hm)
    simp [roleCount, hx, ih hr]

theorem roleCount_append (r : Nat) (g₁ g₂ : List Nat) :
    roleCount r (g₁ ++ g₂) = roleCount r g₁ + roleCount r g₂ := by
  induction g₁ with
  | nil => simp [roleCount]
  | cons x rest ih =>
    simp [roleCount, ih]
    omega

theorem roleCount_pos_of_mem (r : Nat) (g : List Nat) (h : r ∈ g) :
    0 < roleCount r g := by
  induction g with
  | nil => simp at h
  | cons x rest ih =>
    by_cases hx : r = x
    · simp [roleCount, hx]
    · rcases List.mem_cons.mp h with h' | h'
      · exact absurd h' hx
      · simp [roleCount, hx]
        exact ih h'

theorem grant_roleCount_one (stored : Option (List Nat)) (r : Nat)
    (h : storedRoleCount r stored ≤ 1) :
    storedRoleCount r (subCommandAccessGrant stored r) = 1 := by
  cases stored with
  | none => simp [subCommandAccessGrant, storedRoleCount, roleCount]
  | some g =>
    by_cases hm : r ∈ g
    · have hpos := roleCount_pos_of_mem r g hm
      simp [subCommandAccessGrant, hm, storedRoleCount] at h ⊢
      omega
    · simp [subCommandAccessGrant, hm, storedRoleCount, roleCount_append,
        roleCount_eq_zero_of_not_mem r g hm, roleCount]

theorem mem_of_roleCount_pos (r : Nat) (g : List Nat) (h : 0 < roleCount r g) :
    r ∈ g := by
  induction g with
  | nil => simp [roleCount] at h
  | cons x rest ih =>
    by_cases hx : r = x
    · exact hx ▸ List.mem_cons_self x rest
    · simp [roleCount, hx] at h
      exact List.mem_cons_of_mem _ (ih h)

theorem grant_unchanged_of_count_one (stored : Option (List Nat)) (r : Nat)
    (h : storedRoleCount r stored = 1) :
    subCommandAccessGrant stored r = stored := by
  cases stored with
  | none => simp [storedRoleCount, roleCount] at h
  | some g =>
    have hm : r ∈ g := by
      apply mem_of_roleCount_pos
      simp [storedRoleCount] at h
      omega
    simp [subCommandAccessGrant, hm]

theorem grantSeq_count_one (r : Nat) :
    ∀ (n : Nat) (stored : Option (List Nat)), storedRoleCount r stored = 1 →
      storedRoleCount r (grantSeq stored r n) = 1 := by
  intro n
  induction n with
  | zero => intro stored h; exact h
  | succ m ih =>
    intro stored h
    show storedRoleCount r (grantSeq (subCommandAccessGrant stored r) r m) = 1
    rw [grant_unchanged_of_count_one stored r h]
    exact ih stored h

/-- Claim C9: granting is idempotent: granting a role already present makes
no write (the stored list is unchanged), and after any nonempty sequence of
grants of the same role a duplicate-free stored record holds exactly one
instance of that role. -/
theorem grantIdempotent :
    (∀ granted r, r ∈ granted →
        subCommandAccessGrant (some granted) r = some granted)
    ∧ (∀ stored r n, storedRoleCount r stored ≤ 1 → 0 < n →
        storedRoleCount r (grantSeq stored r n) = 1) := by
  constructor
  · intro g r hm
    simp [subCommandAccessGrant, hm]
  · intro stored r n hcount hn
    cases n with
    | zero => exact absurd hn (lt_irrefl 0)
    | succ m =>
      show storedRoleCount r (grantSeq (subCommandAccessGrant stored r) r m) = 1
      exact grantSeq_count_one r m _ (grant_roleCount_one stored r hcount)

/-- Evaluation of grant idempotence at concrete inputs: role 5 is granted
twice on an initially absent record and once on a record already holding it. -/
theorem grantIdempotent_witness :
    ((5 : Nat) ∈ [5] ∧ subCommandAccessGrant (some [5]) 5 = some [5])
    ∧ (storedRoleCount 5 none ≤ 1 ∧ 0 < 2 ∧
        storedRoleCount 5 (grantSeq none 5 2) = 1) :=
  ⟨⟨by decide, grantIdempotent.1 [5] 5 (by decide)⟩,
    ⟨by decide, by decide, grantIdempotent.2 none 5 2 (by decide) (by decide)⟩⟩

theorem processOptionLines_length_le (lines : List (List Char)) :
    ∀ i, (processOptionLines i lines).1.length ≤ 25 - i := by
  induction lines with
  | nil => intro i; simp [processOptionLines]
  | cons opt rest ih =>
    intro i
    by_cases hi : i > 24
    · simp [processOptionLines, hi]
    · have hr := ih (i + 1)
      simp only [processOptionLines, hi, if_false]
      simp only [List.length_cons]
      omega

theorem processOptionLines_take (lines : List (List Char)) :
    ∀ i, processOptionLines i lines = processOptionLines i (lines.take (25 - i)) := by
  induction lines with
  | nil => intro i; simp
  | cons opt rest ih =>
    intro i
    by_cases hi : i > 24
    · have h0 : 25 - i = 0 := by omega
      simp [processOptionLines, hi, h0]
    · have h1 : 25 - i = (25 - (i + 1)) + 1 := by omega
      rw [h1, List.take_succ_cons]
      have hrec := ih (i + 1)
      simp [processOptionLines, hi, hrec]

theorem processOptionLines_label_le (lines : List (List Char)) :
    ∀ i p, p ∈ (processOptionLines i lines).1 → p.2.length ≤ 100 := by
  induction lines with
  | nil => intro i p hp; simp [processOptionLines] at hp
  | cons opt rest ih =>
    intro i p hp
    by_cases hi : i > 24
    · simp [processOptionLines, hi] at hp
    · simp only [processOptionLines, hi, if_false, List.mem_cons] at hp
      rcases hp with hp | hp
      · subst hp
        by_cases hl : opt.length > 100
        · simp [hl, List.length_take]
        · simp [hl]
          omega
      · exact ih (i + 1) p hp

/-- Claim C7: the options built from the newline-split input hold at most 25
entries, lines beyond index 24 are dropped (processing the input and
processing its first 25 lines coincide), and every stored label is truncated
to at most 100 characters. -/
theorem optionLimits :
    (∀ lines, (processOptionLines 0 lines).1.length ≤ 25)
    ∧ (∀ lines, processOptionLines 0 lines = processOptionLines 0 (lines.take 25))
    ∧ (∀ lines p, p ∈ (processOptionLines 0 lines).1 → p.2.length ≤ 100) := by
  refine ⟨?_, ?_, ?_⟩
  · intro lines
    simpa using processOptionLines_length_le lines 0
  · intro lines
    simpa using processOptionLines_take lines 0
  · intro lines p hp
    exact processOptionLines_label_le lines 0 p hp

/-- Evaluation of the option limits on a concrete oversized input: 27 lines,
one of them 120 characters long. -/
theorem optionLimits_witness :
    (processOptionLines 0 (List.replicate 120 'x' :: List.replicate 26 ['y'])).1.length ≤ 25
    ∧ processOptionLines 0 (List.replicate 120 'x' :: List.replicate 26 ['y'])
        = processOptionLines 0 ((List.replicate 120 'x' :: List.replicate 26 ['y']).take 25) :=
  ⟨optionLimits.1 (List.replicate 120 'x' :: List.replicate 26 ['y']),
    optionLimits.2.1 (List.replicate 120 'x' :: List.replicate 26 ['y'])⟩

/-- Claim C5 counterexample: the option-key generated for the first option
line is "vote/0": it is not "opt/0" as the spec words it. -/
theorem optionKeyNaming_counterexample :
    (processOptionLines 0 [['A']]).2 = ["vote/0"]
    ∧ ("vote/0" : String) ≠ "opt/0" := by
  constructor
  · rfl
  · decide

theorem processOptionLines_order (lines : List (List Char)) :
    ∀ i, (processOptionLines i lines).2
      = (List.range' i (min lines.length (25 - i))).map (fun j => "vote/" ++ toString j) := by
  induction lines with
  | nil => intro i; simp [processOptionLines]
  | cons opt rest ih =>
    intro i
    by_cases hi : i > 24
    · have h0 : 25 - i = 0 := by omega
      simp [processOptionLines, hi, h0]
    · have h1 : min (opt :: rest).length (25 - i)
          = (min rest.length (25 - (i + 1))) + 1 := by
        simp only [List.length_cons]
        omega
      rw [h1, List.range'_succ]
      simp [processOptionLines, hi, ih (i + 1)]

/-- Claim C5 amended: option-keys are assigned deterministically by ordinal
position as "vote/0", "vote/1", …, one per processed line. -/
theorem optionKeysOrdinal (lines : List (List Char)) :
    (processOptionLines 0 lines).2
      = (List.range (min lines.length 25)).map (fun i => "vote/" ++ toString i) := by
  simpa [List.range_eq_range'] using processOptionLines_order lines 0

/-- Claim C6 counterexample: a requested duration of 0 days passes the
declared validation (the Min bound 0 is inclusive) although the spec's
interval (0, 365] excludes it, so a 0-day poll is created rather than
rejected. -/
theorem durationZero_counterexample :
    durationAccepted 0 = true ∧ specDurationAccepted 0 = false := by
  constructor
  · decide
  · decide

/-- Claim C6 amended: the duration validation accepts exactly the closed
interval [0, 365]: every duration the spec's interval (0, 365] admits plus
the duration 0, whose poll has endTime equal to startTime and is therefore
closed from the moment it exists. -/
theorem durationValidationInterval :
    (∀ d : ℚ, durationAccepted d = true ↔ (specDurationAccepted d = true ∨ d = 0))
    ∧ (∀ startTime question lines,
        (createVote startTime 0 question lines).endTime = startTime) := by
  constructor
  · intro d
    simp only [durationAccepted, specDurationAccepted, decide_eq_true_eq]
    constructor
    · rintro ⟨h1, h2⟩
      rcases lt_or_eq_of_le h1 with h | h
      · exact Or.inl ⟨h, h2⟩
      · exact Or.inr h.symm
    · rintro (⟨h1, h2⟩ | rfl)
      · exact ⟨le_of_lt h1, h2⟩
      · norm_num
  · intro startTime question lines
    simp [createVote]

/-- Evaluation of the amended duration claim at a concrete input: a 0-day
poll created at time 1000 already ends at time 1000. -/
theorem durationValidationInterval_witness :
    (createVote 1000 0 [] []).endTime = 1000 :=
  durationValidationInterval.2 1000 [] []

/-- Claim C8 divergence: the ballot selector is built from the iteration
order of the options map, not from the record's order field, so two valid
iteration sequences of the same record (any permutation of its options)
produce different selectors. -/
theorem selectorDependsOnIterationOrder :
    pollAB.options.reverse.Perm pollAB.options
    ∧ makeVoteSelector pollAB.options ≠ makeVoteSelector pollAB.options.reverse := by
  constructor
  · exact List.reverse_perm pollAB.options
  · decide

/-- Claim C1 divergence: with the read (`storage.GetVote`) and the write
(`Vote.Store`) in separate store operations, the interleaving read₁, read₂,
write₁, write₂ of two concurrent casts on the same open poll reports both
ballots registered, yet the finally stored record holds no ballot for the
first voter: a lost update. -/
theorem lostUpdate_staleInterleaving :
    (staleInterleaving (some pollAB) 1500 1 "vote/0" 2 "vote/1").1
        = CastOutcome.registered ['P', 'i', 'z', 'z', 'a']
    ∧ (staleInterleaving (some pollAB) 1500 1 "vote/0" 2 "vote/1").2.1
        = CastOutcome.registered ['T', 'a', 'c', 'o', 's']
    ∧ ((staleInterleaving (some pollAB) 1500 1 "vote/0" 2 "vote/1").2.2).map
        (fun v => lookupAssoc 1 v.votes) = some none := by
  refine ⟨?_, ?_, ?_⟩ <;> decide
